import Mathlib

/-!
Verification of the manifest-driven source-generation loop.

Shallow embedding of the two TypeScript programs:
* `SrcGen`      — `src/index.ts`: the `SourceGenerator` class (Command Interpreter
                  `processCommands` and Generation Driver `generate`).
* `BatchClient` — `src/batchDownload.ts`: the batch-replay client
                  (`processCommandFile` and `main`).

The filesystem is modelled as an association list from path to content; directory
creation (`fs.mkdir recursive`) never fails and has no effect observable by any
claim, so it is absorbed into the write.  The manifest document on disk
(`autosrc.json`) is modelled as the `disk` field of the state; `saveManifest`
copies the in-memory manifest there.  `process.stdout.write`/`console.log` and
`console.error` are modelled as the `outLog` and `errLog` lists.
-/

namespace SrcGen

/-- A JSON value arriving in the `content` field of an update command:
either an actual string, or any non-string JSON value (object, number, ...).
Node's `fs.writeFile` throws a `TypeError` on the latter. -/
inductive CVal where
  | str (s : String)
  | other
deriving DecidableEq, Repr

/-- `status: 'pending' | 'generated' | 'deleted'` from `interface ManifestFile`. -/
inductive Status where
  | pending
  | generated
  | deleted
deriving DecidableEq, Repr

/-- `interface ManifestFile { path; description; status }`. -/
structure ManifestFile where
  path : String
  description : String
  status : Status
deriving DecidableEq, Repr

/-- `interface Manifest { files: ManifestFile[] }`. -/
structure Manifest where
  files : List ManifestFile
deriving DecidableEq, Repr

/-- The tagged union `type Command = AddCommand | UpdateCommand | RemoveCommand
| FinishCommand`.  The source dispatches by probing for a key (`'add' in command`
etc.); a JSON object with none of the known keys falls through every branch of
the if/else chain, which the `unknown` constructor represents. -/
inductive Command where
  | add (path description : String)
  | update (path : String) (content : CVal) (why : String)
  | remove (path : String)
  | finish (report : String)
  | unknown
deriving DecidableEq, Repr

/-- Errors thrown during command application:
`ioError` models the ENOENT rejection of `fs.unlink` on a missing path,
`typeError` models the TypeError of `fs.writeFile` on non-string content. -/
inductive Err where
  | ioError (path : String)
  | typeError (path : String)
deriving DecidableEq, Repr

/-- Flat filesystem: association list path → content. -/
abbrev Fs := List (String × String)

def fsRead (fs : Fs) (p : String) : Option String :=
  (fs.find? (fun e => e.fst == p)).map (fun e => e.snd)

def fsWrite (fs : Fs) (p c : String) : Fs :=
  match fs with
  | [] => [(p, c)]
  | e :: rest => if e.fst == p then (p, c) :: rest else e :: fsWrite rest p c

def fsErase (fs : Fs) (p : String) : Fs :=
  fs.filter (fun e => !(e.fst == p))

/-- Full state of a `SourceGenerator` run: the real filesystem, the in-memory
manifest (`this.manifest`), the persisted manifest document (`./autosrc.json`),
and the two output streams. -/
structure GenState where
  fs : Fs
  manifest : Manifest
  disk : Manifest
  outLog : List String
  errLog : List String
deriving DecidableEq, Repr

/-- `saveManifest`: serialize `this.manifest` to `./autosrc.json`. -/
def saveManifest (st : GenState) : GenState :=
  { st with disk := st.manifest }

/-- `this.manifest.files.find(f => f.path === filePath)`: first entry in
insertion order whose path matches. -/
def findByPath (files : List ManifestFile) (p : String) : Option ManifestFile :=
  files.find? (fun f => f.path == p)

/-- Mutating `file.status = s` on the entry returned by `find`: updates the
status of the first entry whose path matches, leaving everything else alone. -/
def setStatusFirst (files : List ManifestFile) (p : String) (s : Status) :
    List ManifestFile :=
  match files with
  | [] => []
  | f :: rest =>
      if f.path == p then { f with status := s } :: rest
      else f :: setStatusFirst rest p s

/-- Outcome of applying one command inside the interpreter loop:
keep iterating, `return true` (finish), or an exception propagating out. -/
inductive StepRes where
  | cont
  | fin
  | threw (e : Err)
deriving DecidableEq, Repr

def contentErrMsg : String := "Claude returned unexpected file content"

/-- One iteration of the `for (const command of commands)` body of
`SourceGenerator.processCommands`. -/
def applyCommand (st : GenState) : Command → GenState × StepRes
  | .add p d =>
      let st := { st with
        outLog := st.outLog ++ ["ADD " ++ p],
        manifest := ⟨st.manifest.files ++ [⟨p, d, .pending⟩]⟩ }
      (saveManifest st, .cont)
  | .update p content _why =>
      let st := { st with outLog := st.outLog ++ ["UPDATE " ++ p] }
      match content with
      | .str s =>
          let st := { st with fs := fsWrite st.fs p s }
          match findByPath st.manifest.files p with
          | some _ =>
              let st := { st with
                manifest := ⟨setStatusFirst st.manifest.files p .generated⟩ }
              (saveManifest st, .cont)
          | none => (st, .cont)
      | .other =>
          -- `typeof(content) !== 'string'` only logs; the write is still
          -- attempted and `fs.writeFile` rejects with a TypeError.
          let st := { st with errLog := st.errLog ++ [contentErrMsg] }
          (st, .threw (.typeError p))
  | .remove p =>
      let st := { st with outLog := st.outLog ++ ["REMOVE " ++ p] }
      match fsRead st.fs p with
      | none => (st, .threw (.ioError p))
      | some _ =>
          let st := { st with fs := fsErase st.fs p }
          match findByPath st.manifest.files p with
          | some _ =>
              let st := { st with
                manifest := ⟨setStatusFirst st.manifest.files p .deleted⟩ }
              (saveManifest st, .cont)
          | none => (st, .cont)
  | .finish report =>
      ({ st with outLog := st.outLog ++ ["Generation complete!", report] }, .fin)
  | .unknown => (st, .cont)

/-- How a whole `processCommands` call ends: returned `false`, returned `true`
(a finish command was reached), or threw. -/
inductive InterpResult where
  | ranToEnd
  | finished
  | threw (e : Err)
deriving DecidableEq, Repr

/-- `SourceGenerator.processCommands`: apply the batch in order, stopping at the
first finish command (returning `true`) or at a thrown exception; the state
reached so far survives either way because the class fields are mutated
in place. -/
def processCommands (st : GenState) : List Command → GenState × InterpResult
  | [] => (st, .ranToEnd)
  | c :: rest =>
      match applyCommand st c with
      | (st', .cont) => processCommands st' rest
      | (st', .fin) => (st', .finished)
      | (st', .threw e) => (st', .threw e)

/-- One cycle's outcome at the generation call: either the `anthropic` call or
`JSON.parse` threw (both land in the same catch), or a parsed command batch. -/
inductive GenResponse where
  | failure (msg : String)
  | commands (cs : List Command)
deriving DecidableEq, Repr

/-- How a `generate` run ends.  `exhausted` marks running out of the supplied
response trace while the loop would still continue. -/
inductive RunOutcome where
  | finished
  | fatal
  | exhausted
deriving DecidableEq, Repr

/-- The message string of an exception escaping `processCommands`, as seen by
the catch block's template literal. -/
def errText : Err → String
  | .ioError p => "Error: ENOENT: no such file or directory, unlink " ++ p
  | .typeError _ => "TypeError: data argument must be of type string"

/-- `SourceGenerator.generate` from `src/index.ts`: the driver loop.  `errors`
is the `let errors: string[] = []` variable; it is assigned only inside the
catch block (`errors = error.split(newline)`) and never reset anywhere.
Each consumed response is one Content Generator invocation; the returned `Nat`
counts invocations made. -/
def generateLoop (st : GenState) (errors : List String) :
    List GenResponse → RunOutcome × GenState × Nat
  | [] => (.exhausted, st, 0)
  | .failure msg :: rest =>
      if errors.length > 0 then (.fatal, st, 1)
      else
        let next := generateLoop st (msg.splitOn "\n") rest
        (next.1, next.2.1, next.2.2 + 1)
  | .commands cs :: rest =>
      match processCommands st cs with
      | (st', .finished) => (.finished, st', 1)
      | (st', .ranToEnd) =>
          let next := generateLoop st' errors rest
          (next.1, next.2.1, next.2.2 + 1)
      | (st', .threw e) =>
          if errors.length > 0 then (.fatal, st', 1)
          else
            let next := generateLoop st' ((errText e).splitOn "\n") rest
            (next.1, next.2.1, next.2.2 + 1)

/-- Fresh state: empty filesystem, empty manifest in memory and on disk. -/
def initState : GenState :=
  { fs := [], manifest := ⟨[]⟩, disk := ⟨[]⟩, outLog := [], errLog := [] }

/-- A command is finish-shaped. -/
def isFinishCmd : Command → Bool
  | .finish _ => true
  | _ => false

/-- Commands that can neither throw nor terminate the batch, whatever the
state: add, update with string content, and unrecognized objects. -/
def benign : Command → Bool
  | .add _ _ => true
  | .update _ (.str _) _ => true
  | .unknown => true
  | _ => false

end SrcGen

namespace BatchClient

open SrcGen (CVal Fs fsWrite)

/-- `type Command = UpdateCommand | ContinueCommand | FinishCommand` of
`src/batchDownload.ts`, plus `unknown` for objects with none of the probed keys
(`update`, `continue`, `finish`). -/
inductive BCommand where
  | update (path : String) (content : CVal) (why : String)
  | continueCmd (pending : List String)
  | finish (report : String)
  | unknown
deriving DecidableEq, Repr

/-- One iteration of the command loop in `processCommandFile`.  The write of an
update command sits in its own try/catch: a failing write (modelled by
non-string content) is logged to stdout and the loop moves on. -/
def bApply (fs : Fs) : BCommand → Fs × List String
  | .update p content why =>
      let log := ["Processing file: " ++ p, "Reason: " ++ why]
      match content with
      | .str s => (fsWrite fs p s, log ++ ["Successfully wrote: " ++ p])
      | .other => (fs, log ++ ["Error writing file " ++ p])
  | .continueCmd pending =>
      if pending.length > 0 then
        (fs, "Pending files to be processed:" :: pending.map (fun f => "- " ++ f))
      else (fs, [])
  | .finish r => (fs, ["Final Report:", r, "Processing complete!"])
  | .unknown => (fs, [])

/-- The whole command loop of `processCommandFile`: every command of the array
is visited; nothing halts early. -/
def bRun (fs : Fs) : List BCommand → Fs × List String
  | [] => (fs, [])
  | c :: rest =>
      let step := bApply fs c
      let next := bRun step.1 rest
      (next.1, step.2 ++ next.2)

/-- One input file as the client sees it: either `readFile`/`JSON.parse` failed
(or the value was not an array), or a parsed command array. -/
inductive BInput where
  | unparsable
  | cmds (cs : List BCommand)
deriving DecidableEq, Repr

def parseErrMsg : String := "Error parsing JSON"

/-- `processCommandFile`: a parse failure is logged and the file skipped;
otherwise the command array is run.  All exceptions are caught inside, so this
never throws. -/
def processCommandFile (fs : Fs) : BInput → Fs × List String
  | .unparsable => (fs, [parseErrMsg])
  | .cmds cs => bRun fs cs

/-- The `for (const file of commandFiles)` loop of `main`. -/
def bRunFiles (fs : Fs) : List BInput → Fs × List String
  | [] => (fs, [])
  | i :: rest =>
      let step := processCommandFile fs i
      let next := bRunFiles step.1 rest
      (next.1, step.2 ++ next.2)

/-- `main`: exits with code 1 (the `Bool` component) only when no input file
was given on the command line; otherwise every file is processed and the
process ends normally. -/
def bMain (fs : Fs) (inputs : List BInput) : Fs × List String × Bool :=
  if inputs.isEmpty then
    (fs, ["Please provide at least one command file as an argument."], true)
  else
    let r := bRunFiles fs inputs
    (r.1, r.2, false)

end BatchClient

/-! ## Helper lemmas about the Command Interpreter -/

namespace SrcGen

theorem processCommands_nil (st : GenState) :
    processCommands st [] = (st, .ranToEnd) := rfl

theorem processCommands_cons (st : GenState) (c : Command) (rest : List Command) :
    processCommands st (c :: rest) =
      match applyCommand st c with
      | (st', .cont) => processCommands st' rest
      | (st', .fin) => (st', .finished)
      | (st', .threw e) => (st', .threw e) := rfl

/-- Unfolded form of the add branch: append a Pending entry, flush the
manifest, touch nothing else. -/
theorem applyCommand_add (st : GenState) (p d : String) :
    applyCommand st (.add p d) =
      (⟨st.fs, ⟨st.manifest.files ++ [⟨p, d, .pending⟩]⟩,
        ⟨st.manifest.files ++ [⟨p, d, .pending⟩]⟩,
        st.outLog ++ ["ADD " ++ p], st.errLog⟩, .cont) := rfl

/-- Unfolded form of the update branch when the path has a manifest entry:
write the file, set the first matching entry to Generated, flush. -/
theorem applyCommand_update_found (st : GenState) (p s w : String) (f : ManifestFile)
    (h : findByPath st.manifest.files p = some f) :
    applyCommand st (.update p (.str s) w) =
      (⟨fsWrite st.fs p s, ⟨setStatusFirst st.manifest.files p .generated⟩,
        ⟨setStatusFirst st.manifest.files p .generated⟩,
        st.outLog ++ ["UPDATE " ++ p], st.errLog⟩, .cont) := by
  simp [applyCommand, saveManifest, h]

/-- Unfolded form of the update branch when no entry matches: the file write
still happens, the manifest (memory and disk) is untouched. -/
theorem applyCommand_update_notfound (st : GenState) (p s w : String)
    (h : findByPath st.manifest.files p = none) :
    applyCommand st (.update p (.str s) w) =
      (⟨fsWrite st.fs p s, st.manifest, st.disk,
        st.outLog ++ ["UPDATE " ++ p], st.errLog⟩, .cont) := by
  simp [applyCommand, h]

/-- Unfolded form of the update branch on non-string content: the validation
message is logged, then the attempted write throws; no file, manifest or disk
change. -/
theorem applyCommand_update_other (st : GenState) (p w : String) :
    applyCommand st (.update p .other w) =
      (⟨st.fs, st.manifest, st.disk, st.outLog ++ ["UPDATE " ++ p],
        st.errLog ++ [contentErrMsg]⟩, .threw (.typeError p)) := rfl

/-- Unfolded form of the remove branch on a missing file: `fs.unlink`
rejects and nothing but the stdout log changes. -/
theorem applyCommand_remove_missing (st : GenState) (p : String)
    (h : fsRead st.fs p = none) :
    applyCommand st (.remove p) =
      (⟨st.fs, st.manifest, st.disk, st.outLog ++ ["REMOVE " ++ p], st.errLog⟩,
        .threw (.ioError p)) := by
  simp [applyCommand, h]

/-- Unfolded form of the remove branch on an existing file with a manifest
entry: erase the file, set the first matching entry to Deleted, flush. -/
theorem applyCommand_remove_found (st : GenState) (p c : String) (f : ManifestFile)
    (hfs : fsRead st.fs p = some c) (hm : findByPath st.manifest.files p = some f) :
    applyCommand st (.remove p) =
      (⟨fsErase st.fs p, ⟨setStatusFirst st.manifest.files p .deleted⟩,
        ⟨setStatusFirst st.manifest.files p .deleted⟩,
        st.outLog ++ ["REMOVE " ++ p], st.errLog⟩, .cont) := by
  simp [applyCommand, saveManifest, hfs, hm]

/-- Unfolded form of the remove branch on an existing file with no manifest
entry: erase the file, manifest and disk untouched. -/
theorem applyCommand_remove_noentry (st : GenState) (p c : String)
    (hfs : fsRead st.fs p = some c) (hm : findByPath st.manifest.files p = none) :
    applyCommand st (.remove p) =
      (⟨fsErase st.fs p, st.manifest, st.disk,
        st.outLog ++ ["REMOVE " ++ p], st.errLog⟩, .cont) := by
  simp [applyCommand, hfs, hm]

theorem applyCommand_finish (st : GenState) (r : String) :
    applyCommand st (.finish r) =
      ({ st with outLog := st.outLog ++ ["Generation complete!", r] }, .fin) := rfl

theorem applyCommand_unknown (st : GenState) :
    applyCommand st .unknown = (st, .cont) := rfl

/-- Processing a concatenated batch: the second half runs only when the first
half neither finished nor threw. -/
theorem processCommands_append (st : GenState) (xs ys : List Command) :
    processCommands st (xs ++ ys) =
      match processCommands st xs with
      | (st1, .ranToEnd) => processCommands st1 ys
      | (st1, .finished) => (st1, .finished)
      | (st1, .threw e) => (st1, .threw e) := by
  induction xs generalizing st with
  | nil => simp [processCommands]
  | cons c rest ih =>
      rw [List.cons_append, processCommands_cons, processCommands_cons]
      rcases applyCommand st c with ⟨st', r⟩
      cases r <;> simp [ih]

end SrcGen

namespace SrcGen

theorem setStatusFirst_length (files : List ManifestFile) (p : String) (s : Status) :
    (setStatusFirst files p s).length = files.length := by
  induction files with
  | nil => rfl
  | cons f rest ih =>
      by_cases h : f.path == p <;> simp [setStatusFirst, h, ih]

/-- `setStatusFirst` leaves every position untouched except possibly one, where
only the status field changes. -/
theorem setStatusFirst_getElem (files : List ManifestFile) (p : String) (s : Status)
    (i : Nat) :
    (setStatusFirst files p s)[i]? = files[i]? ∨
    ∃ f, files[i]? = some f ∧
      (setStatusFirst files p s)[i]? = some { f with status := s } := by
  induction files generalizing i with
  | nil => left; rfl
  | cons f rest ih =>
      by_cases h : f.path == p
      · cases i with
        | zero => right; exact ⟨f, by simp, by simp [setStatusFirst, h]⟩
        | succ j => left; simp [setStatusFirst, h]
      · cases i with
        | zero => left; simp [setStatusFirst, h]
        | succ j =>
            rcases ih j with h' | ⟨g, hg, hg'⟩
            · left; simpa [setStatusFirst, h] using h'
            · right; exact ⟨g, by simpa using hg, by simpa [setStatusFirst, h] using hg'⟩

/-- When no entry matches, the status write never happens. -/
theorem setStatusFirst_nomatch (files : List ManifestFile) (p : String) (s : Status)
    (h : findByPath files p = none) : setStatusFirst files p s = files := by
  induction files with
  | nil => rfl
  | cons f rest ih =>
      rw [findByPath, List.find?_cons] at h
      by_cases hf : f.path == p
      · simp [hf] at h
      · rw [Bool.not_eq_true] at hf
        simp only [hf, cond_false] at h
        simp [setStatusFirst, hf, ih h]

/-- Entry preservation: the later manifest sequence is at least as long, and
every position that existed before still holds an entry with the same path and
description (only the status may differ). -/
def entriesKept (a b : List ManifestFile) : Prop :=
  a.length ≤ b.length ∧
  ∀ (i : Nat) (f g : ManifestFile), a[i]? = some f → b[i]? = some g →
    g.path = f.path ∧ g.description = f.description

theorem entriesKept_refl (a : List ManifestFile) : entriesKept a a := by
  refine ⟨le_rfl, fun i f g hf hg => ?_⟩
  rw [hf] at hg
  cases hg
  exact ⟨rfl, rfl⟩

theorem entriesKept_trans {a b c : List ManifestFile}
    (hab : entriesKept a b) (hbc : entriesKept b c) : entriesKept a c := by
  obtain ⟨hab1, hab2⟩ := hab
  obtain ⟨hbc1, hbc2⟩ := hbc
  refine ⟨le_trans hab1 hbc1, fun i f h hf hh => ?_⟩
  have hi : i < b.length := lt_of_lt_of_le (List.getElem?_eq_some.mp hf).1 hab1
  have hg : b[i]? = some (b.get ⟨i, hi⟩) := List.getElem?_eq_getElem hi
  have h1 := hab2 i f (b.get ⟨i, hi⟩) hf hg
  have h2 := hbc2 i (b.get ⟨i, hi⟩) h hg hh
  exact ⟨h2.1.trans h1.1, h2.2.trans h1.2⟩

theorem entriesKept_append (a xs : List ManifestFile) : entriesKept a (a ++ xs) := by
  refine ⟨by simp, fun i f g hf hg => ?_⟩
  have hi : i < a.length := (List.getElem?_eq_some.mp hf).1
  rw [List.getElem?_append, if_pos hi, hf] at hg
  cases hg
  exact ⟨rfl, rfl⟩

theorem entriesKept_setStatusFirst (a : List ManifestFile) (p : String) (s : Status) :
    entriesKept a (setStatusFirst a p s) := by
  refine ⟨le_of_eq (setStatusFirst_length a p s).symm, fun i f g hf hg => ?_⟩
  rcases setStatusFirst_getElem a p s i with h | ⟨f', hf', hg'⟩
  · rw [h, hf] at hg; cases hg; exact ⟨rfl, rfl⟩
  · rw [hf] at hf'
    cases hf'
    rw [hg'] at hg
    cases hg
    exact ⟨rfl, rfl⟩

/-- Every single command keeps all existing manifest entries in place. -/
theorem applyCommand_entriesKept (st : GenState) (c : Command) :
    entriesKept st.manifest.files ((applyCommand st c).1.manifest.files) := by
  cases c with
  | add p d =>
      rw [applyCommand_add]
      exact entriesKept_append _ _
  | update p content why =>
      cases content with
      | str s =>
          rcases h : findByPath st.manifest.files p with _ | f
          · rw [applyCommand_update_notfound st p s why h]
            exact entriesKept_refl _
          · rw [applyCommand_update_found st p s why f h]
            exact entriesKept_setStatusFirst _ _ _
      | other =>
          rw [applyCommand_update_other]
          exact entriesKept_refl _
  | remove p =>
      rcases hr : fsRead st.fs p with _ | c0
      · rw [applyCommand_remove_missing st p hr]
        exact entriesKept_refl _
      · rcases h : findByPath st.manifest.files p with _ | f
        · rw [applyCommand_remove_noentry st p c0 hr h]
          exact entriesKept_refl _
        · rw [applyCommand_remove_found st p c0 f hr h]
          exact entriesKept_setStatusFirst _ _ _
  | finish r =>
      rw [applyCommand_finish]
      exact entriesKept_refl _
  | unknown =>
      rw [applyCommand_unknown]
      exact entriesKept_refl _

/-- A whole batch keeps all existing manifest entries in place. -/
theorem processCommands_entriesKept (cs : List Command) (st : GenState) :
    entriesKept st.manifest.files ((processCommands st cs).1.manifest.files) := by
  induction cs generalizing st with
  | nil => exact entriesKept_refl _
  | cons c rest ih =>
      rw [processCommands_cons]
      rcases h : applyCommand st c with ⟨st', r⟩
      have hk : entriesKept st.manifest.files st'.manifest.files := by
        have := applyCommand_entriesKept st c
        rwa [h] at this
      cases r with
      | cont => exact entriesKept_trans hk (ih st')
      | fin => exact hk
      | threw e => exact hk

/-- A benign command always continues the loop. -/
theorem benign_applyCommand (st : GenState) (c : Command) (h : benign c = true) :
    (applyCommand st c).2 = .cont := by
  cases c with
  | add p d => rfl
  | update p content why =>
      cases content with
      | str s =>
          rcases hf : findByPath st.manifest.files p with _ | f
          · rw [applyCommand_update_notfound st p s why hf]
          · rw [applyCommand_update_found st p s why f hf]
      | other => simp [benign] at h
  | remove p => simp [benign] at h
  | finish r => simp [benign] at h
  | unknown => rfl

/-- A batch of benign commands is a successful, non-finishing cycle. -/
theorem benign_ranToEnd (cs : List Command) (h : cs.all benign = true) (st : GenState) :
    (processCommands st cs).2 = .ranToEnd := by
  induction cs generalizing st with
  | nil => rfl
  | cons c rest ih =>
      rw [List.all_cons, Bool.and_eq_true] at h
      have hc := benign_applyCommand st c h.1
      rw [processCommands_cons]
      rcases hs : applyCommand st c with ⟨st', r⟩
      rw [hs] at hc
      cases r with
      | cont => exact ih h.2 st'
      | fin => cases hc
      | threw e => cases hc

/-- A finish-free command never signals `fin`. -/
theorem not_finish_applyCommand (st : GenState) (c : Command)
    (h : isFinishCmd c = false) : (applyCommand st c).2 ≠ .fin := by
  cases c with
  | add p d => simp [applyCommand_add]
  | update p content why =>
      cases content with
      | str s =>
          rcases hf : findByPath st.manifest.files p with _ | f
          · rw [applyCommand_update_notfound st p s why hf]; simp
          · rw [applyCommand_update_found st p s why f hf]; simp
      | other => rw [applyCommand_update_other]; simp
  | remove p =>
      rcases hr : fsRead st.fs p with _ | c0
      · rw [applyCommand_remove_missing st p hr]; simp
      · rcases hf : findByPath st.manifest.files p with _ | f
        · rw [applyCommand_remove_noentry st p c0 hr hf]; simp
        · rw [applyCommand_remove_found st p c0 f hr hf]; simp
  | finish r => simp [isFinishCmd] at h
  | unknown => simp [applyCommand_unknown]

/-- A batch with no finish-shaped command never reports `finished`. -/
theorem noFinish_not_finished (cs : List Command)
    (h : cs.all (fun c => !isFinishCmd c) = true) (st : GenState) :
    (processCommands st cs).2 ≠ .finished := by
  induction cs generalizing st with
  | nil => simp [processCommands]
  | cons c rest ih =>
      rw [List.all_cons, Bool.and_eq_true, Bool.not_eq_true'] at h
      have hc := not_finish_applyCommand st c h.1
      rw [processCommands_cons]
      rcases hs : applyCommand st c with ⟨st', r⟩
      rw [hs] at hc
      cases r with
      | cont => exact ih h.2 st'
      | fin => exact absurd rfl hc
      | threw e => simp

end SrcGen

namespace SrcGen

/-- `String.splitOnAux` always produces at least one piece. -/
theorem splitOnAux_ne_nil (s sep : String) (b i j : String.Pos) (r : List String) :
    String.splitOnAux s sep b i j r ≠ [] := by
  induction b, i, j, r using String.splitOnAux.induct s sep with
  | _ => rw [String.splitOnAux]; simp_all

/-- `split('\n')` on any error text yields a nonempty list, so after the catch
block records a failure the pending-feedback check `errors.length > 0` holds. -/
theorem splitOn_ne_nil (s sep : String) : s.splitOn sep ≠ [] := by
  rw [String.splitOn]
  by_cases h : sep == ""
  · simp [h]
  · simp only [h, ite_false, Bool.false_eq_true]
    exact splitOnAux_ne_nil s sep 0 0 0 []

theorem generateLoop_nil (st : GenState) (errors : List String) :
    generateLoop st errors [] = (.exhausted, st, 0) := rfl

theorem generateLoop_failure (st : GenState) (errors : List String) (msg : String)
    (rest : List GenResponse) :
    generateLoop st errors (.failure msg :: rest) =
      if errors.length > 0 then (.fatal, st, 1)
      else
        ((generateLoop st (msg.splitOn "\n") rest).1,
         (generateLoop st (msg.splitOn "\n") rest).2.1,
         (generateLoop st (msg.splitOn "\n") rest).2.2 + 1) := rfl

theorem generateLoop_commands (st : GenState) (errors : List String)
    (cs : List Command) (rest : List GenResponse) :
    generateLoop st errors (.commands cs :: rest) =
      match processCommands st cs with
      | (st', .finished) => (.finished, st', 1)
      | (st', .ranToEnd) =>
          ((generateLoop st' errors rest).1,
           (generateLoop st' errors rest).2.1,
           (generateLoop st' errors rest).2.2 + 1)
      | (st', .threw e) =>
          if errors.length > 0 then (.fatal, st', 1)
          else
            ((generateLoop st' ((errText e).splitOn "\n") rest).1,
             (generateLoop st' ((errText e).splitOn "\n") rest).2.1,
             (generateLoop st' ((errText e).splitOn "\n") rest).2.2 + 1) := rfl

/-- A generation failure while error feedback is already pending is fatal. -/
theorem generateLoop_failure_pending (st : GenState) (errors : List String)
    (msg : String) (rest : List GenResponse) (he : errors ≠ []) :
    generateLoop st errors (.failure msg :: rest) = (.fatal, st, 1) := by
  rw [generateLoop_failure, if_pos (List.length_pos.mpr he)]

/-- A cycle whose batch finishes ends the run at once. -/
theorem generateLoop_finished (st st' : GenState) (errors : List String)
    (cs : List Command) (rest : List GenResponse)
    (h : processCommands st cs = (st', .finished)) :
    generateLoop st errors (.commands cs :: rest) = (.finished, st', 1) := by
  rw [generateLoop_commands, h]

/-- A successful non-finishing cycle loops on with the SAME pending feedback:
nothing in the loop body ever resets `errors`. -/
theorem generateLoop_success_keeps_errors (st st' : GenState) (errors : List String)
    (cs : List Command) (rest : List GenResponse)
    (h : processCommands st cs = (st', .ranToEnd)) :
    generateLoop st errors (.commands cs :: rest) =
      ((generateLoop st' errors rest).1,
       (generateLoop st' errors rest).2.1,
       (generateLoop st' errors rest).2.2 + 1) := by
  rw [generateLoop_commands, h]

/-- An exception escaping the interpreter while feedback is pending is fatal. -/
theorem generateLoop_threw_pending (st st' : GenState) (errors : List String)
    (cs : List Command) (e : Err) (rest : List GenResponse)
    (h : processCommands st cs = (st', .threw e)) (he : errors ≠ []) :
    generateLoop st errors (.commands cs :: rest) = (.fatal, st', 1) := by
  rw [generateLoop_commands, h]
  simp [List.length_pos.mpr he]

/-- With feedback pending, any number of successful benign cycles followed by
one more failure ends the run fatally: the pending feedback survives every
success. -/
theorem pending_then_failure_fatal (batches : List (List Command))
    (hb : ∀ cs ∈ batches, cs.all benign = true) (st : GenState)
    (errors : List String) (he : errors ≠ []) (msg : String)
    (rest : List GenResponse) :
    (generateLoop st errors (batches.map .commands ++ .failure msg :: rest)).1
      = .fatal := by
  induction batches generalizing st with
  | nil =>
      rw [List.map_nil, List.nil_append,
        generateLoop_failure_pending st errors msg rest he]
  | cons cs bs ih =>
      rw [List.map_cons, List.cons_append]
      have hr := benign_ranToEnd cs (hb cs (by simp)) st
      rcases hp : processCommands st cs with ⟨st', r⟩
      rw [hp] at hr
      simp only at hr
      subst hr
      rw [generateLoop_success_keeps_errors st st' errors cs _ hp]
      exact ih (fun c hc => hb c (List.mem_cons_of_mem _ hc)) st'

end SrcGen

namespace SrcGen

/-- After a write, reading the same path returns the written content. -/
theorem fsRead_fsWrite_self (fs : Fs) (p c : String) :
    fsRead (fsWrite fs p c) p = some c := by
  induction fs with
  | nil => simp [fsWrite, fsRead]
  | cons e rest ih =>
      by_cases h : e.fst == p
      · simp [fsWrite, fsRead, h]
      · simp only [fsWrite, h, ite_false, Bool.false_eq_true]
        simpa [fsRead, List.find?_cons, h] using ih

/-- After an unlink, the path no longer exists. -/
theorem fsRead_fsErase_self (fs : Fs) (p : String) :
    fsRead (fsErase fs p) p = none := by
  induction fs with
  | nil => rfl
  | cons e rest ih =>
      by_cases h : e.fst == p
      · simpa [fsErase, List.filter_cons, h] using ih
      · simp only [fsErase, List.filter_cons, h, Bool.not_false, if_true] at ih ⊢
        simp only [fsRead, List.find?_cons, h] at ih ⊢
        exact ih

/-- Away from the first matching index, `setStatusFirst` changes nothing. -/
theorem setStatusFirst_ne_findIdx (files : List ManifestFile) (p : String)
    (s : Status) (j : Nat) (hj : j ≠ files.findIdx (fun f => f.path == p)) :
    (setStatusFirst files p s)[j]? = files[j]? := by
  induction files generalizing j with
  | nil => rfl
  | cons f rest ih =>
      by_cases h : f.path == p
      · rw [List.findIdx_cons] at hj
        simp only [h, cond_true] at hj
        cases j with
        | zero => exact absurd rfl hj
        | succ k => simp [setStatusFirst, h]
      · cases j with
        | zero => simp [setStatusFirst, h]
        | succ k =>
            rw [List.findIdx_cons] at hj
            simp only [h, cond_false] at hj
            have hk : k ≠ rest.findIdx (fun f => f.path == p) := by
              intro hk
              exact hj (by rw [hk])
            simp [setStatusFirst, h, ih k hk]

/-- At the first matching index, the matched entry is there, and
`setStatusFirst` rewrites exactly its status. -/
theorem setStatusFirst_at_findIdx (files : List ManifestFile) (p : String)
    (s : Status) (f : ManifestFile) (h : findByPath files p = some f) :
    files[files.findIdx (fun f0 => f0.path == p)]? = some f ∧
    (setStatusFirst files p s)[files.findIdx (fun f0 => f0.path == p)]?
      = some { f with status := s } := by
  induction files with
  | nil => cases h
  | cons f0 rest ih =>
      rw [findByPath, List.find?_cons] at h
      by_cases hf : f0.path == p
      · simp only [hf] at h
        cases h
        simp [List.findIdx_cons, hf, setStatusFirst]
      · rw [Bool.not_eq_true] at hf
        simp only [hf] at h
        have := ih h
        simp [List.findIdx_cons, hf, setStatusFirst, this.1, this.2]

end SrcGen

namespace BatchClient

theorem bRun_nil (fs : SrcGen.Fs) : bRun fs [] = (fs, []) := rfl

theorem bRun_cons (fs : SrcGen.Fs) (c : BCommand) (rest : List BCommand) :
    bRun fs (c :: rest) =
      ((bRun (bApply fs c).1 rest).1,
        (bApply fs c).2 ++ (bRun (bApply fs c).1 rest).2) := rfl

/-- The filesystem after a concatenated batch factors through the prefix:
nothing in the loop stops early. -/
theorem bRun_fst_append (fs : SrcGen.Fs) (xs ys : List BCommand) :
    (bRun fs (xs ++ ys)).1 = (bRun (bRun fs xs).1 ys).1 := by
  induction xs generalizing fs with
  | nil => rfl
  | cons c rest ih => simp [bRun_cons, ih]

end BatchClient

namespace SrcGen

/-- Outcome view of a first failure: the run retries with the error text
recorded as feedback. -/
theorem generateLoop_failure_fresh_outcome (st : GenState) (msg : String)
    (rest : List GenResponse) :
    (generateLoop st [] (.failure msg :: rest)).1
      = (generateLoop st (msg.splitOn "\n") rest).1 := by
  rw [generateLoop_failure]
  simp

/-- Outcome view of a successful non-finishing cycle: the loop goes on with
the same pending feedback. -/
theorem generateLoop_success_outcome (st st' : GenState) (errors : List String)
    (cs : List Command) (rest : List GenResponse)
    (h : processCommands st cs = (st', .ranToEnd)) :
    (generateLoop st errors (.commands cs :: rest)).1
      = (generateLoop st' errors rest).1 := by
  rw [generateLoop_success_keeps_errors st st' errors cs rest h]

/-- Outcome view of a batch that throws with no feedback pending: the run
retries with the exception text recorded as feedback. -/
theorem generateLoop_threw_fresh_outcome (st st' : GenState) (cs : List Command)
    (e : Err) (rest : List GenResponse)
    (h : processCommands st cs = (st', .threw e)) :
    (generateLoop st [] (.commands cs :: rest)).1
      = (generateLoop st' ((errText e).splitOn "\n") rest).1 := by
  rw [generateLoop_commands, h]
  simp

end SrcGen

/-! ## Claims -/

namespace SrcGen

/-- C1, counterexample: the claim says the run becomes fatal only when two
failures occur consecutively, never when separated by a successful cycle.  In
`generate` the `errors` feedback is assigned in the catch block and never
cleared anywhere, so the trace failure – successful cycle – failure ends
fatally. -/
theorem C1_counterexample :
    (generateLoop initState []
      [.failure "first bad response", .commands [.add "b.ts" "entry"],
       .failure "second bad response"]).1 = RunOutcome.fatal := by
  rw [generateLoop_failure_fresh_outcome]
  rw [generateLoop_success_outcome _ _ _ _ _ rfl]
  rw [generateLoop_failure_pending _ _ _ _ (splitOn_ne_nil _ _)]

/-- C1 (amended): a generation-call or parse failure gets one retry with the
error recorded as feedback — one malformed response followed by a well-formed
finishing response completes the run — but a successful cycle does NOT clear
the pending feedback: the second failure of the run is fatal even when any
number of successful cycles separate the two failures. -/
theorem C1_retry_feedback_never_cleared (st : GenState) (msg msg2 r : String)
    (batches : List (List Command)) (rest rest2 : List GenResponse)
    (hb : ∀ cs ∈ batches, cs.all benign = true) :
    (generateLoop st [] (.failure msg :: .commands [.finish r] :: rest)).1
      = RunOutcome.finished ∧
    (generateLoop st []
      (.failure msg :: (batches.map .commands ++ .failure msg2 :: rest2))).1
      = RunOutcome.fatal := by
  constructor
  · rw [generateLoop_failure_fresh_outcome]
    rw [generateLoop_finished st _ (msg.splitOn "\n") [.finish r] rest rfl]
  · rw [generateLoop_failure_fresh_outcome]
    exact pending_then_failure_fatal batches hb st (msg.splitOn "\n")
      (splitOn_ne_nil msg "\n") msg2 rest2

/-- C1 witness: the amended theorem at a concrete trace. -/
theorem C1_witness :
    (generateLoop initState []
      [.failure "e1", .commands [.finish "done"]]).1 = RunOutcome.finished ∧
    (generateLoop initState []
      [.failure "e1", .commands [.add "a.ts" "d"], .failure "e2"]).1
      = RunOutcome.fatal := by
  have h := C1_retry_feedback_never_cleared initState "e1" "e2" "done"
    [[.add "a.ts" "d"]] [] [] (by decide)
  simpa using h

/-- C2, counterexample: for an Update whose content is not a string the claim
says the write is skipped, the error is recoverable and processing is not
fatal.  In the code the write is attempted anyway; its TypeError aborts the
rest of the batch (the following add is never applied), and at the driver two
consecutive such batches end the run fatally. -/
theorem C2_counterexample :
    (processCommands initState
        [.update "a.ts" .other "w", .add "b.ts" "d"]).2
      = InterpResult.threw (Err.typeError "a.ts") ∧
    (processCommands initState
        [.update "a.ts" .other "w", .add "b.ts" "d"]).1.manifest.files = [] ∧
    (generateLoop initState []
        [.commands [.update "a.ts" .other "w"],
         .commands [.update "a.ts" .other "w"]]).1 = RunOutcome.fatal := by
  refine ⟨rfl, rfl, ?_⟩
  rw [generateLoop_threw_fresh_outcome _ _ _ _ _ rfl]
  rw [generateLoop_threw_pending _ _ _ _ _ _ rfl (splitOn_ne_nil _ _)]

/-- C2 (amended): for an Update with non-string content the interpreter logs
the invalid content on the error stream but does not skip the write — the
attempted write throws a TypeError — leaving the file, the manifest and the
persisted manifest unchanged, abandoning the remaining commands of the batch,
and the exception surfaces to the Driver where it is treated like any cycle
failure: fatal when error feedback is already pending. -/
theorem C2_invalid_content_throws (st : GenState) (p w : String)
    (rest : List Command) (errors : List String) (he : errors ≠ [])
    (rest2 : List GenResponse) :
    processCommands st (.update p .other w :: rest)
      = (⟨st.fs, st.manifest, st.disk, st.outLog ++ ["UPDATE " ++ p],
          st.errLog ++ [contentErrMsg]⟩, .threw (.typeError p)) ∧
    generateLoop st errors (.commands (.update p .other w :: rest) :: rest2)
      = (.fatal, ⟨st.fs, st.manifest, st.disk, st.outLog ++ ["UPDATE " ++ p],
          st.errLog ++ [contentErrMsg]⟩, 1) := by
  have h1 : processCommands st (.update p .other w :: rest)
      = (⟨st.fs, st.manifest, st.disk, st.outLog ++ ["UPDATE " ++ p],
          st.errLog ++ [contentErrMsg]⟩, .threw (.typeError p)) := rfl
  exact ⟨h1, generateLoop_threw_pending _ _ _ _ _ _ h1 he⟩

/-- C2 witness: the amended theorem at a concrete state and command. -/
theorem C2_witness :
    processCommands initState [Command.update "a.ts" CVal.other "w"]
      = (⟨[], ⟨[]⟩, ⟨[]⟩, ["UPDATE " ++ "a.ts"], [contentErrMsg]⟩,
          .threw (.typeError "a.ts")) ∧
    generateLoop initState ["pending error"]
        [.commands [Command.update "a.ts" CVal.other "w"]]
      = (.fatal, ⟨[], ⟨[]⟩, ⟨[]⟩, ["UPDATE " ++ "a.ts"], [contentErrMsg]⟩, 1) := by
  have h := C2_invalid_content_throws initState "a.ts" "w" [] ["pending error"]
    (by decide) []
  exact h

/-- The state of the C3 scenario: one manifest entry already Deleted, its file
present on disk, manifest persisted. -/
def c3State : GenState :=
  { fs := [("a.ts", "x")], manifest := ⟨[⟨"a.ts", "d", .deleted⟩]⟩,
    disk := ⟨[⟨"a.ts", "d", .deleted⟩]⟩, outLog := [], errLog := [] }

/-- C3, counterexample: the claim says no command transitions an entry out of
the Deleted status.  An Update on a path whose first matching entry is Deleted
sets that entry back to Generated. -/
theorem C3_counterexample :
    c3State.manifest.files = [⟨"a.ts", "d", Status.deleted⟩] ∧
    (processCommands c3State [.update "a.ts" (.str "y") "w"]).1.manifest.files
      = [⟨"a.ts", "d", Status.generated⟩] := ⟨rfl, rfl⟩

/-- C3 (amended): entries are never removed from the manifest sequence —
every pre-existing position keeps its path and description and the sequence
never shrinks — but Update sets the first matching entry's status to Generated
regardless of its previous status (including Deleted, so a Deleted entry can
regress to Generated), and Remove sets the first matching entry to Deleted
regardless of its previous status. -/
theorem C3_entries_kept_status_overwritten (st : GenState) (cs : List Command)
    (p s w c0 : String) (f : ManifestFile)
    (hm : findByPath st.manifest.files p = some f)
    (hfs : fsRead st.fs p = some c0) :
    entriesKept st.manifest.files ((processCommands st cs).1.manifest.files) ∧
    (applyCommand st (.update p (.str s) w)).1.manifest.files
      = setStatusFirst st.manifest.files p .generated ∧
    (applyCommand st (.remove p)).1.manifest.files
      = setStatusFirst st.manifest.files p .deleted := by
  refine ⟨processCommands_entriesKept cs st, ?_, ?_⟩
  · rw [applyCommand_update_found st p s w f hm]
  · rw [applyCommand_remove_found st p c0 f hfs hm]

/-- C3 witness: the amended theorem on the Deleted-entry state. -/
theorem C3_witness :
    entriesKept c3State.manifest.files
      ((processCommands c3State [.update "a.ts" (.str "y") "w"]).1.manifest.files) ∧
    (applyCommand c3State (.update "a.ts" (.str "y") "w")).1.manifest.files
      = setStatusFirst c3State.manifest.files "a.ts" .generated ∧
    (applyCommand c3State (.remove "a.ts")).1.manifest.files
      = setStatusFirst c3State.manifest.files "a.ts" .deleted :=
  C3_entries_kept_status_overwritten c3State [.update "a.ts" (.str "y") "w"]
    "a.ts" "y" "w" "x" ⟨"a.ts", "d", .deleted⟩ rfl rfl

end SrcGen

namespace SrcGen

/-- C4: a batch containing a Finish command stops at the first Finish — the
commands after it are never applied, the result being independent of them —
returns `finished` (the TS `true`) with the report surfaced on stdout, and
the Driver then makes no further Content Generator invocation for that run
(exactly one response is consumed whatever the remaining trace); a batch with
no finish-shaped command never reports finished, and on normal completion the
loop goes on consuming responses. -/
theorem C4_finish_halts_batch_and_run
    (st st1 st' st2 : GenState) (cs1 cs2 cs cs3 cs4 : List Command) (r : String)
    (errors : List String) (rest : List GenResponse)
    (hrun : processCommands st cs1 = (st1, .ranToEnd))
    (hnf : cs.all (fun c => !(isFinishCmd c)) = true)
    (hfin : processCommands st cs3 = (st', .finished))
    (hcont : processCommands st cs4 = (st2, .ranToEnd)) :
    processCommands st (cs1 ++ .finish r :: cs2)
      = processCommands st (cs1 ++ [.finish r]) ∧
    processCommands st (cs1 ++ .finish r :: cs2)
      = ({ st1 with outLog := st1.outLog ++ ["Generation complete!", r] },
          .finished) ∧
    (processCommands st cs).2 ≠ .finished ∧
    generateLoop st errors (.commands cs3 :: rest) = (.finished, st', 1) ∧
    generateLoop st errors (.commands cs4 :: rest)
      = ((generateLoop st2 errors rest).1, (generateLoop st2 errors rest).2.1,
         (generateLoop st2 errors rest).2.2 + 1) := by
  have key : ∀ ys, processCommands st (cs1 ++ .finish r :: ys)
      = ({ st1 with outLog := st1.outLog ++ ["Generation complete!", r] },
          .finished) := by
    intro ys
    rw [processCommands_append, hrun]
    rfl
  exact ⟨(key cs2).trans (key []).symm, key cs2, noFinish_not_finished cs hnf st,
    generateLoop_finished st st' errors cs3 rest hfin,
    generateLoop_success_keeps_errors st st2 errors cs4 rest hcont⟩

/-- C4 witness: the theorem at concrete batches. -/
theorem C4_witness :
    processCommands initState
        ([Command.add "a.ts" "d1"] ++ Command.finish "done" :: [Command.add "b.ts" "d2"])
      = processCommands initState ([Command.add "a.ts" "d1"] ++ [Command.finish "done"]) ∧
    processCommands initState
        ([Command.add "a.ts" "d1"] ++ Command.finish "done" :: [Command.add "b.ts" "d2"])
      = ({ (processCommands initState [Command.add "a.ts" "d1"]).1 with
            outLog := (processCommands initState [Command.add "a.ts" "d1"]).1.outLog
              ++ ["Generation complete!", "done"] }, .finished) ∧
    (processCommands initState [Command.add "c.ts" "d3"]).2 ≠ .finished ∧
    generateLoop initState [] [.commands [Command.finish "done"]]
      = (.finished, (processCommands initState [Command.finish "done"]).1, 1) ∧
    generateLoop initState [] [.commands [Command.add "e.ts" "d4"]]
      = ((generateLoop (processCommands initState [Command.add "e.ts" "d4"]).1 [] []).1,
         (generateLoop (processCommands initState [Command.add "e.ts" "d4"]).1 [] []).2.1,
         (generateLoop (processCommands initState [Command.add "e.ts" "d4"]).1 [] []).2.2 + 1) :=
  C4_finish_halts_batch_and_run initState _ _ _ [Command.add "a.ts" "d1"]
    [Command.add "b.ts" "d2"] [Command.add "c.ts" "d3"] [Command.finish "done"]
    [Command.add "e.ts" "d4"] "done" [] [] rfl (by decide) rfl rfl

/-- C5: a Remove on an existing file deletes it from the filesystem, sets the
first matching manifest entry (if any) to Deleted, keeps the entry count
unchanged, and keeps the persisted manifest in sync with memory; a Remove on
a missing path throws an IOError with the manifest, the persisted manifest
and the filesystem untouched. -/
theorem C5_remove_behaviour (st : GenState) (p q c0 : String)
    (hp : fsRead st.fs p = some c0) (hq : fsRead st.fs q = none)
    (hsync : st.disk = st.manifest) :
    fsRead ((applyCommand st (.remove p)).1.fs) p = none ∧
    (applyCommand st (.remove p)).2 = .cont ∧
    (applyCommand st (.remove p)).1.manifest.files
      = setStatusFirst st.manifest.files p .deleted ∧
    (applyCommand st (.remove p)).1.manifest.files.length
      = st.manifest.files.length ∧
    (applyCommand st (.remove p)).1.disk = (applyCommand st (.remove p)).1.manifest ∧
    applyCommand st (.remove q)
      = ({ st with outLog := st.outLog ++ ["REMOVE " ++ q] },
          .threw (.ioError q)) := by
  have h6 : applyCommand st (.remove q)
      = ({ st with outLog := st.outLog ++ ["REMOVE " ++ q] },
          .threw (.ioError q)) := applyCommand_remove_missing st q hq
  rcases hm : findByPath st.manifest.files p with _ | f
  · have he := applyCommand_remove_noentry st p c0 hp hm
    rw [he]
    exact ⟨fsRead_fsErase_self st.fs p, rfl,
      (setStatusFirst_nomatch st.manifest.files p .deleted hm).symm, rfl, hsync, h6⟩
  · have he := applyCommand_remove_found st p c0 f hp hm
    rw [he]
    exact ⟨fsRead_fsErase_self st.fs p, rfl, rfl,
      setStatusFirst_length st.manifest.files p .deleted, rfl, h6⟩

/-- The state of the C5 scenario: one Generated entry whose file exists. -/
def c5State : GenState :=
  { fs := [("a.ts", "x")], manifest := ⟨[⟨"a.ts", "d", .generated⟩]⟩,
    disk := ⟨[⟨"a.ts", "d", .generated⟩]⟩, outLog := [], errLog := [] }

/-- C5 witness: the theorem on a state with one tracked, existing file. -/
theorem C5_witness :
    fsRead ((applyCommand c5State (.remove "a.ts")).1.fs) "a.ts" = none ∧
    (applyCommand c5State (.remove "a.ts")).2 = .cont ∧
    (applyCommand c5State (.remove "a.ts")).1.manifest.files
      = setStatusFirst c5State.manifest.files "a.ts" .deleted ∧
    (applyCommand c5State (.remove "a.ts")).1.manifest.files.length
      = c5State.manifest.files.length ∧
    (applyCommand c5State (.remove "a.ts")).1.disk
      = (applyCommand c5State (.remove "a.ts")).1.manifest ∧
    applyCommand c5State (.remove "b.ts")
      = ({ c5State with outLog := c5State.outLog ++ ["REMOVE " ++ "b.ts"] },
          .threw (.ioError "b.ts")) :=
  C5_remove_behaviour c5State "a.ts" "b.ts" "x" rfl rfl rfl

end SrcGen

namespace SrcGen

/-- C6: Add appends a new Pending entry at the END of the manifest sequence
with no duplicate check (the state is arbitrary, so the same path may already
be present), persists the manifest immediately, and writes no file; the
lookups used by Update and Remove touch only the FIRST matching entry in
insertion order — every other position is unchanged and the first match gets
exactly the new status. -/
theorem C6_add_appends_lookup_first_match
    (st : GenState) (p d q s0 w : String) (sNew : Status) (f : ManifestFile)
    (hq : findByPath st.manifest.files q = some f) :
    applyCommand st (.add p d)
      = (⟨st.fs, ⟨st.manifest.files ++ [⟨p, d, .pending⟩]⟩,
          ⟨st.manifest.files ++ [⟨p, d, .pending⟩]⟩,
          st.outLog ++ ["ADD " ++ p], st.errLog⟩, .cont) ∧
    (∀ j, j ≠ st.manifest.files.findIdx (fun f0 => f0.path == q) →
      (setStatusFirst st.manifest.files q sNew)[j]? = st.manifest.files[j]?) ∧
    st.manifest.files[st.manifest.files.findIdx (fun f0 => f0.path == q)]?
      = some f ∧
    (setStatusFirst st.manifest.files q
        sNew)[st.manifest.files.findIdx (fun f0 => f0.path == q)]?
      = some { f with status := sNew } ∧
    (applyCommand st (.update q (.str s0) w)).1.manifest.files
      = setStatusFirst st.manifest.files q .generated ∧
    ((fsRead st.fs q).isSome → (applyCommand st (.remove q)).1.manifest.files
      = setStatusFirst st.manifest.files q .deleted) := by
  refine ⟨applyCommand_add st p d,
    fun j hj => setStatusFirst_ne_findIdx st.manifest.files q sNew j hj,
    (setStatusFirst_at_findIdx st.manifest.files q sNew f hq).1,
    (setStatusFirst_at_findIdx st.manifest.files q sNew f hq).2, ?_, ?_⟩
  · rw [applyCommand_update_found st q s0 w f hq]
  · intro hfs
    obtain ⟨c0, hc0⟩ := Option.isSome_iff_exists.mp hfs
    rw [applyCommand_remove_found st q c0 f hc0 hq]

/-- The state of the C6 scenario: two entries with the SAME path already in
the manifest, and the file present on disk. -/
def c6State : GenState :=
  { fs := [("a.ts", "x")],
    manifest := ⟨[⟨"a.ts", "d1", .pending⟩, ⟨"a.ts", "d2", .pending⟩]⟩,
    disk := ⟨[⟨"a.ts", "d1", .pending⟩, ⟨"a.ts", "d2", .pending⟩]⟩,
    outLog := [], errLog := [] }

/-- C6 witness: the theorem on a manifest that already holds a duplicate of
the added path. -/
theorem C6_witness :
    applyCommand c6State (.add "a.ts" "d3")
      = (⟨c6State.fs, ⟨c6State.manifest.files ++ [⟨"a.ts", "d3", .pending⟩]⟩,
          ⟨c6State.manifest.files ++ [⟨"a.ts", "d3", .pending⟩]⟩,
          c6State.outLog ++ ["ADD " ++ "a.ts"], c6State.errLog⟩, .cont) ∧
    (∀ j, j ≠ c6State.manifest.files.findIdx (fun f0 => f0.path == "a.ts") →
      (setStatusFirst c6State.manifest.files "a.ts" .generated)[j]?
        = c6State.manifest.files[j]?) ∧
    c6State.manifest.files[c6State.manifest.files.findIdx
        (fun f0 => f0.path == "a.ts")]? = some ⟨"a.ts", "d1", .pending⟩ ∧
    (setStatusFirst c6State.manifest.files "a.ts"
        .generated)[c6State.manifest.files.findIdx (fun f0 => f0.path == "a.ts")]?
      = some { (⟨"a.ts", "d1", .pending⟩ : ManifestFile) with status := Status.generated } ∧
    (applyCommand c6State (.update "a.ts" (.str "y") "w")).1.manifest.files
      = setStatusFirst c6State.manifest.files "a.ts" .generated ∧
    ((fsRead c6State.fs "a.ts").isSome →
      (applyCommand c6State (.remove "a.ts")).1.manifest.files
        = setStatusFirst c6State.manifest.files "a.ts" .deleted) :=
  C6_add_appends_lookup_first_match c6State "a.ts" "d3" "a.ts" "y" "w"
    .generated ⟨"a.ts", "d1", .pending⟩ rfl

/-- C7: an Update whose path matches no manifest entry still performs the
filesystem write — afterward the file holds exactly the new content — while
the in-memory manifest and the persisted manifest document are entirely
unchanged: no entry is created, no status changes, and no flush happens. -/
theorem C7_update_without_entry (st : GenState) (p s w : String)
    (h : findByPath st.manifest.files p = none) :
    applyCommand st (.update p (.str s) w)
      = (⟨fsWrite st.fs p s, st.manifest, st.disk,
          st.outLog ++ ["UPDATE " ++ p], st.errLog⟩, .cont) ∧
    fsRead ((applyCommand st (.update p (.str s) w)).1.fs) p = some s := by
  have he := applyCommand_update_notfound st p s w h
  rw [he]
  exact ⟨rfl, fsRead_fsWrite_self st.fs p s⟩

/-- The state of the C7 scenario: the manifest tracks only an unrelated
path. -/
def c7State : GenState :=
  { fs := [], manifest := ⟨[⟨"other.ts", "d", .pending⟩]⟩,
    disk := ⟨[⟨"other.ts", "d", .pending⟩]⟩, outLog := [], errLog := [] }

/-- C7 witness: the theorem on an update of an untracked path. -/
theorem C7_witness :
    applyCommand c7State (.update "new.ts" (.str "body") "w")
      = (⟨fsWrite c7State.fs "new.ts" "body", c7State.manifest, c7State.disk,
          c7State.outLog ++ ["UPDATE " ++ "new.ts"], c7State.errLog⟩, .cont) ∧
    fsRead ((applyCommand c7State (.update "new.ts" (.str "body") "w")).1.fs)
        "new.ts" = some "body" :=
  C7_update_without_entry c7State "new.ts" "body" "w" rfl

end SrcGen

namespace BatchClient

/-- C8: in the batch-replay client a parse failure of one input file or a
write failure of one Update command is logged and never escalates: the run is
fatal only for an empty argument list, a failing write still lets the
remaining commands of the same file run against the same filesystem, and a
parse failure skips only that file — all subsequent input files still run. -/
theorem C8_batch_errors_not_fatal (fs : SrcGen.Fs) (inputs : List BInput)
    (hne : inputs ≠ []) (p w : String) (cs : List BCommand)
    (is : List BInput) :
    (bMain fs inputs).2.2 = false ∧
    (bRun fs (.update p .other w :: cs)).1 = (bRun fs cs).1 ∧
    (bRun fs (.update p .other w :: cs)).2
      = ["Processing file: " ++ p, "Reason: " ++ w, "Error writing file " ++ p]
          ++ (bRun fs cs).2 ∧
    (bRunFiles fs (.unparsable :: is)).1 = (bRunFiles fs is).1 ∧
    (bRunFiles fs (.unparsable :: is)).2 = parseErrMsg :: (bRunFiles fs is).2 := by
  refine ⟨?_, rfl, rfl, rfl, rfl⟩
  cases inputs with
  | nil => exact absurd rfl hne
  | cons i is' => rfl

/-- C8 witness: the theorem at one well-formed input file. -/
theorem C8_witness :
    (bMain [] [.cmds [.update "x.txt" (.str "hello") "t"]]).2.2 = false ∧
    (bRun [] (.update "x.txt" .other "t" :: [])).1 = (bRun [] []).1 ∧
    (bRun [] (.update "x.txt" .other "t" :: [])).2
      = ["Processing file: " ++ "x.txt", "Reason: " ++ "t",
         "Error writing file " ++ "x.txt"] ++ (bRun [] []).2 ∧
    (bRunFiles [] (.unparsable :: [])).1 = (bRunFiles [] []).1 ∧
    (bRunFiles [] (.unparsable :: [])).2 = parseErrMsg :: (bRunFiles [] []).2 :=
  C8_batch_errors_not_fatal [] [.cmds [.update "x.txt" (.str "hello") "t"]]
    (List.cons_ne_nil _ _) "x.txt" "t" [] []

/-- C9: in the batch-replay client a Finish command does not halt processing:
the filesystem result of a batch with a Finish inserted anywhere equals that
of the same batch with the Finish removed, and in particular an Update
following a Finish is still written. -/
theorem C9_finish_does_not_halt (fs : SrcGen.Fs) (r : String)
    (xs ys : List BCommand) (p c w : String) :
    (bRun fs (xs ++ .finish r :: ys)).1 = (bRun fs (xs ++ ys)).1 ∧
    (bRun fs [.finish r, .update p (.str c) w]).1 = SrcGen.fsWrite fs p c := by
  constructor
  · rw [bRun_fst_append, bRun_fst_append]
    rfl
  · rfl

end BatchClient

/-- C10: a command object matching none of the known key shapes falls through
every branch of the if/else chain in both interpreters and is silently
skipped: no filesystem, manifest or log change, and processing continues with
the next command. -/
theorem C10_unknown_commands_skipped (st : SrcGen.GenState)
    (rest : List SrcGen.Command) (fs : SrcGen.Fs)
    (brest : List BatchClient.BCommand) :
    SrcGen.applyCommand st .unknown = (st, .cont) ∧
    SrcGen.processCommands st (.unknown :: rest)
      = SrcGen.processCommands st rest ∧
    BatchClient.bApply fs .unknown = (fs, []) ∧
    BatchClient.bRun fs (.unknown :: brest) = BatchClient.bRun fs brest :=
  ⟨rfl, rfl, rfl, rfl⟩
